import Mathlib

/-!
Verification of the earthstar storage engine and sync layer.

The development shallowly embeds two source files:

* `StoreSqlite` (query / ingest / set / local sync over a table with
  primary key `(key, author)`); the SQLite table is modelled as a
  `List Item` and `INSERT OR REPLACE` as removal of the conflicting
  `(key, author)` row followed by an append.
* `syncLocalAndHttp` and the `Syncer` orchestrator; the HTTP transport
  and the newer storage class are abstracted as parameters (their code
  is not part of the repository snapshot under verification).

A central point of the embedding: in the source, the staleness check of
`ingestItem` is the JavaScript expression
`[item.timestamp, item.signature] <= [existing.timestamp, existing.signature]`.
JavaScript relational operators convert arrays to primitives with
`Array.prototype.toString`, which joins the elements with `","`; the
comparison is therefore a plain string comparison of
`"<timestamp>,<signature>"` against `"<timestamp>,<signature>"`, not a
lexicographic comparison with the timestamps taken as integers.  The
embedding (`jsPairLeq`) reproduces exactly that.
-/

/-- A stored document, one row of the `items` table
(columns `schema, workspace, key, value, timestamp, author, signature`).
Timestamps are microseconds since the epoch; they are integers well below
`2^53`, so JavaScript numbers and SQLite `NUMBER` both represent them
exactly and are modelled as `Nat`. -/
structure Item where
  schema : String
  workspace : String
  key : String
  value : String
  timestamp : Nat
  author : String
  signature : String
deriving DecidableEq, Repr

/-- Strict lexicographic comparison of character lists; agrees with both
the JavaScript string order (UTF-16 code units) and the SQLite `TEXT`
order (UTF-8 bytes) on the character ranges the repository produces. -/
def charsLtB : List Char → List Char → Bool
  | [], [] => false
  | [], _ :: _ => true
  | _ :: _, [] => false
  | a :: as, b :: bs => decide (a < b) || (a == b && charsLtB as bs)

/-- Strict string comparison. -/
def strLtB (s t : String) : Bool := charsLtB s.data t.data

/-- Non-strict string comparison; for the total lexicographic order,
`s <= t` is exactly `not (t < s)`, which is also how JavaScript
evaluates `<=` on strings. -/
def strLeB (s t : String) : Bool := !(charsLtB t.data s.data)

/-- The string JavaScript produces for the array `[timestamp, signature]`:
`String(timestamp) ++ "," ++ signature`. -/
def jsPairStr (ts : Nat) (sig : String) : String :=
  toString ts ++ "," ++ sig

/-- The JavaScript comparison `[ts, sig] <= [ts', sig']`: both arrays are
converted to primitives with `Array.prototype.toString` (elements joined
by a comma) and the results are compared as strings. -/
def jsPairLeq (ts : Nat) (sig : String) (ts' : Nat) (sig' : String) : Bool :=
  strLeB (jsPairStr ts sig) (jsPairStr ts' sig')

/-- Strict lexicographic order on `(timestamp, signature)` with the
timestamp compared as an integer and the signature as a string.  This is
the order the spec describes, and the order used by the SQL
`ORDER BY timestamp DESC, signature DESC` clauses. -/
def tsSigLtB (ts : Nat) (sig : String) (ts' : Nat) (sig' : String) : Bool :=
  decide (ts < ts') || (ts == ts' && strLtB sig sig')

/-- `SELECT * FROM items WHERE key = :key AND author = :author ORDER BY
timestamp DESC LIMIT 1` — the row (unique, by the primary key) stored for
this `(key, author)`; among hypothetical timestamp ties SQL leaves the
choice open and the fold keeps the first. -/
def existingSameAuthorSameKey (db : List Item) (key author : String) : Option Item :=
  (db.filter (fun r => r.key == key && r.author == author)).foldl
    (fun acc r =>
      match acc with
      | none => some r
      | some m => if decide (m.timestamp < r.timestamp) then some r else some m)
    none

/-- `INSERT OR REPLACE INTO items ... VALUES (...)`: the primary key is
`(key, author)`, so any row with the same key and author is replaced. -/
def upsert (db : List Item) (item : Item) : List Item :=
  db.filter (fun r => !(r.key == item.key && r.author == item.author)) ++ [item]

/-- `StoreSqlite.ingestItem`.  The validation collaborator
(`itemIsValid` of `storeUtils`, outside this snapshot) is a parameter
`valid`, receiving the optional future cutoff that `ingestItem` forwards
to it.  The staleness check is the JavaScript array comparison
(see `jsPairLeq`). -/
def ingestItem (valid : Item → Option Nat → Bool) (db : List Item)
    (item : Item) (futureCutoff : Option Nat) : Bool × List Item :=
  if !(valid item futureCutoff) then (false, db)
  else
    match existingSameAuthorSameKey db item.key item.author with
    | some ex =>
        if jsPairLeq item.timestamp item.signature ex.timestamp ex.signature then
          (false, db)
        else
          (true, upsert db item)
    | none => (true, upsert db item)

/-- Ingest a list of documents one at a time (no future cutoff), keeping
only the final table; this is the loop both local sync and the
order-independence statements run. -/
def ingestAll (valid : Item → Option Nat → Bool) (db : List Item)
    (docs : List Item) : List Item :=
  docs.foldl (fun db d => (ingestItem valid db d none).2) db

/-- `StoreSqlite.getItem`: `SELECT * FROM items WHERE key = :key ORDER BY
timestamp DESC, signature DESC LIMIT 1` — the winning row for one key. -/
def getItem (db : List Item) (key : String) : Option Item :=
  (db.filter (fun r => r.key == key)).foldl
    (fun acc r =>
      match acc with
      | none => some r
      | some m =>
          if tsSigLtB m.timestamp m.signature r.timestamp r.signature then some r else some m)
    none

/-- A validity oracle that accepts every document: the hypothesis "the
document passes validation" of the ingest claims. -/
def acceptAll : Item → Option Nat → Bool := fun _ _ => true

/-- A validity oracle that rejects every document. -/
def rejectAll : Item → Option Nat → Bool := fun _ _ => false

/-- The query options object (`QueryOpts` of `types.ts`); an absent field
means "no filter".  The source field `prefix` is called `prefixFilter`
here. -/
structure QueryOpts where
  key : Option String := none
  lowKey : Option String := none
  highKey : Option String := none
  prefixFilter : Option String := none
  limit : Option Nat := none
  includeHistory : Bool := false
deriving DecidableEq, Repr

/-- ASCII lowering, as SQLite's default `LIKE` applies to both operands
(`Char.toLower` also folds only the ASCII range). -/
def asciiLower (s : String) : String := String.mk (s.data.map Char.toLower)

/-- SQLite `LIKE` pattern matching with `ESCAPE '\'`:
`%` matches any sequence, `_` any single character, and a backslash makes
the following character literal. -/
def likeMatch : List Char → List Char → Bool
  | [], s => s.isEmpty
  | '%' :: ps, s =>
      likeMatch ps s ||
        (match s with
         | [] => false
         | _ :: s' => likeMatch ('%' :: ps) s')
  | '\\' :: c :: ps, s =>
      (match s with
       | [] => false
       | d :: s' => d == c && likeMatch ps s')
  | ['\\'], _ => false
  | '_' :: ps, s =>
      (match s with
       | [] => false
       | _ :: s' => likeMatch ps s')
  | c :: ps, s =>
      (match s with
       | [] => false
       | d :: s' => d == c && likeMatch ps s')
termination_by p s => (p.length, s.length)

/-- The escaping `items` applies to the prefix before using it in a
`LIKE` pattern: every `_` and `%` is preceded by a backslash (a plain
backslash already present in the prefix is left alone, as in the
source). -/
def escapeLike (s : String) : String :=
  String.mk (s.data.foldr
    (fun c acc => if c == '_' || c == '%' then '\\' :: c :: acc else c :: acc) [])

/-- The `WHERE` clause assembled by `StoreSqlite.items` from the query
options: exact key, half-open key range, and the escaped-prefix `LIKE`
test (case-insensitive on ASCII, as SQLite's `LIKE` is by default). -/
def matchesQuery (q : QueryOpts) (r : Item) : Bool :=
  (match q.key with | none => true | some k => r.key == k)
  && (match q.lowKey with | none => true | some lk => strLeB lk r.key)
  && (match q.highKey with | none => true | some hk => strLtB r.key hk)
  && (match q.prefixFilter with
      | none => true
      | some p =>
          likeMatch (asciiLower (escapeLike p ++ "%")).data (asciiLower r.key).data)

/-- `ORDER BY key ASC, timestamp DESC, signature DESC`: row `a` may come
before row `b` when its key is smaller, or the keys agree and `a`'s
`(timestamp, signature)` is at least `b`'s. -/
def queryLeB (a b : Item) : Bool :=
  strLtB a.key b.key ||
    (a.key == b.key &&
      (decide (b.timestamp < a.timestamp) ||
        (b.timestamp == a.timestamp && strLeB b.signature a.signature)))

/-- Insertion into a sorted list, used to model the SQL ordering. -/
def insertSorted (leB : Item → Item → Bool) : Item → List Item → List Item
  | x, [] => [x]
  | x, y :: ys => if leB x y then x :: y :: ys else y :: insertSorted leB x ys

/-- Sort a list of rows by a boolean comparison. -/
def sortItems (leB : Item → Item → Bool) (l : List Item) : List Item :=
  l.foldr (insertSorted leB) []

/-- The `LIMIT` clause: present only when a limit was supplied and is
positive (`query.limit !== undefined && query.limit > 0`). -/
def applyLimit (limit : Option Nat) (l : List Item) : List Item :=
  match limit with
  | some n => if 0 < n then l.take n else l
  | none => l

/-- `StoreSqlite.items` with `includeHistory: true`: every retained row
matching the filters, in `ORDER BY key ASC, timestamp DESC, signature
DESC` order, truncated by the limit. -/
def itemsWithHistory (db : List Item) (q : QueryOpts) : List Item :=
  applyLimit q.limit (sortItems queryLeB (db.filter (matchesQuery q)))

/-- Keys strictly ascending along the list. -/
def strictKeyAsc : List Item → Bool
  | [] => true
  | [_] => true
  | a :: b :: rest => strLtB a.key b.key && strictKeyAsc (b :: rest)

/-- The largest timestamp among the rows of `l` whose key is `k`
(`MAX(timestamp)` of the group). -/
def maxTsForKey (l : List Item) (k : String) : Nat :=
  ((l.filter (fun r => r.key == k)).map Item.timestamp).foldr max 0

/-- `StoreSqlite.items` with `includeHistory: false` runs
`SELECT schema, workspace, key, author, value, MAX(timestamp) as
timestamp, signature FROM items ... GROUP BY key ORDER BY key ASC, ...`.
With a single `MAX` aggregate, SQLite guarantees that the bare columns of
each group come from one input row that attains the maximum timestamp,
but when several rows of a group tie at that maximum it does not specify
which of them supplies the row.  The no-history query (without a limit)
is therefore embedded as the set of result lists SQLite is allowed to
return: `res` is allowed when its keys are strictly ascending, every
matching key is represented, and every returned row is a matching row
attaining the maximal timestamp of its key. -/
def itemsNoHistoryAllowedB (db : List Item) (q : QueryOpts) (res : List Item) : Bool :=
  let m := db.filter (matchesQuery q)
  strictKeyAsc res
  && m.all (fun r => res.any (fun r' => r'.key == r.key))
  && res.all (fun r =>
      m.any (fun r' => decide (r' = r))
      && m.all (fun r' => !(r'.key == r.key) || decide (r'.timestamp ≤ r.timestamp)))

/-- The write request accepted by `StoreSqlite.set` (`ItemToSet` of
`types.ts`); `schema` and `timestamp` are optional. -/
structure ItemToSet where
  schema : Option String := none
  key : String
  value : String
  author : String
  authorSecret : String
  timestamp : Option Nat := none
deriving DecidableEq, Repr

/-- Modelled from the spec: `signItem` of `storeUtils` (a source file not
present in this snapshot) — the signing collaborator produces a detached
signature over the document's canonical content with the author's secret
key and attaches it.  The signature bytes themselves are an abstract
function `sigOf` of the document and the secret. -/
def signItem (sigOf : Item → String → String) (item : Item) (secret : String) : Item :=
  { item with signature := sigOf item secret }

/-- Modelled from the spec: the validation collaborator `itemIsValid` of
`storeUtils` (not present in this snapshot) — rejects a document whose
timestamp exceeds the future cutoff (default: now + 10 minutes); the
shape and signature checks are an abstract oracle `sigOk`. -/
def itemIsValid (sigOk : Item → Bool) (now : Nat) (item : Item)
    (futureCutoff : Option Nat) : Bool :=
  sigOk item && decide (item.timestamp ≤ futureCutoff.getD (now + 600000000))

/-- `StoreSqlite.set`: resolve the default schema, fill in the engine's
workspace, take the requested timestamp when positive and `now`
otherwise, raise it above the current winner for the key, sign, and
ingest with the document's own timestamp as the future cutoff. -/
def set (valid : Item → Option Nat → Bool) (sigOf : Item → String → String)
    (db : List Item) (workspace : String) (its : ItemToSet) (now : Nat) :
    Bool × List Item :=
  let ts0 := its.timestamp.getD 0
  let item0 : Item :=
    { schema := its.schema.getD "kw.1"
      workspace := workspace
      key := its.key
      value := its.value
      author := its.author
      timestamp := if 0 < ts0 then ts0 else now
      signature := "" }
  let existingItemTimestamp :=
    match getItem db its.key with
    | some it => it.timestamp
    | none => 0
  let item1 := { item0 with timestamp := max item0.timestamp (existingItemTimestamp + 1) }
  let signedItem := signItem sigOf item1 its.authorSecret
  ingestItem valid db signedItem (some item1.timestamp)

/-- `opts.direction` of `SyncOpts`: `'push' | 'pull' | 'both'`. -/
inductive Direction where
  | push
  | pull
  | both
deriving DecidableEq, Repr

/-- The options of `StoreSqlite.sync`; `none` models an absent field. -/
structure SyncOpts where
  direction : Option Direction := none
  existing : Option Bool := none
  live : Option Bool := none
deriving DecidableEq, Repr

/-- The result of `StoreSqlite.sync`. -/
structure SyncResults where
  numPushed : Nat
  numPulled : Nat
deriving DecidableEq, Repr

namespace StoreSqlite

/-- `StoreSqlite._syncFrom`: throw on live sync; otherwise, when
`existing` is set, pull every row of the other store
(`items({includeHistory: true})`) and ingest them one by one, counting
the accepted ones.  The `throw` of the source is an `Except.error`. -/
def syncFrom (valid : Item → Option Nat → Bool) (self other : List Item)
    (existing live : Bool) : Except String (Nat × List Item) :=
  if live then .error "live sync not implemented yet"
  else if existing then
    .ok ((itemsWithHistory other { includeHistory := true }).foldl
      (fun acc it =>
        let r := ingestItem valid acc.2 it none
        (if r.1 then acc.1 + 1 else acc.1, r.2))
      (0, self))
  else .ok (0, self)

/-- `StoreSqlite.sync`.  Physical identity of the two engine objects
(`otherStore === this`) is not visible on pure values, so it is an
explicit `sameInstance` flag; the function returns the results together
with the updated tables of both engines. -/
def sync (valid : Item → Option Nat → Bool) (self other : List Item)
    (selfWs otherWs : String) (sameInstance : Bool) (opts : SyncOpts) :
    Except String (SyncResults × List Item × List Item) :=
  if sameInstance then .ok (⟨0, 0⟩, self, other)
  else if selfWs != otherWs then .ok (⟨0, 0⟩, self, other)
  else
    let direction := opts.direction.getD .both
    let existing := opts.existing.getD true
    let live := opts.live.getD false
    match
      (if direction == .pull || direction == .both then
        syncFrom valid self other existing live
      else .ok (0, self)) with
    | .error e => .error e
    | .ok (numPulled, self') =>
        match
          (if direction == .push || direction == .both then
            syncFrom valid other self' existing live
          else .ok (0, other)) with
        | .error e => .error e
        | .ok (numPushed, other') => .ok (⟨numPushed, numPulled⟩, self', other')

end StoreSqlite

/-- Pull statistics of one HTTP sync pass (`resultStats.pull`). -/
structure PullStats where
  numIngested : Nat
  numIgnored : Nat
  numTotal : Nat
deriving DecidableEq, Repr

/-- `resultStats` of `syncLocalAndHttp`: `pull` and `push` start as
`null`; the code never assigns `push` anywhere (a successful push stores
the remote's reply under the separate field `pushStats`), so `push`
remains `none` on every path. -/
structure SyncResultStats where
  pull : Option PullStats := none
  push : Option PullStats := none
  pushStats : Option String := none
deriving DecidableEq, Repr

/-- The observable outcomes of the pull `GET`: a transport failure, a
`404`, or a body decoding to a list of documents. -/
inductive PullResp (Doc : Type) where
  | connFail
  | notFound
  | ok (docs : List Doc)

/-- The observable outcomes of the push `POST`: a transport failure, a
`404`, a `403`, or a reply body (an opaque statistics blob). -/
inductive PushResp where
  | connFail
  | notFound
  | forbidden
  | ok (stats : String)
deriving DecidableEq, Repr

/-- The pull loop of `syncLocalAndHttp`: `numTotal` is the length of the
fetched list; each document is offered to `storage.ingestDocument` and
tallied as ingested or ignored. -/
def pullPhase {σ Doc : Type} (ingestDocument : σ → Doc → Bool × σ)
    (storage : σ) (docs : List Doc) : PullStats × σ :=
  docs.foldl
    (fun acc doc =>
      let r := ingestDocument acc.2 doc
      (if r.1 then { acc.1 with numIngested := acc.1.numIngested + 1 }
       else { acc.1 with numIgnored := acc.1.numIgnored + 1 }, r.2))
    ({ numIngested := 0, numIgnored := 0, numTotal := docs.length }, storage)

/-- The push section of `syncLocalAndHttp`: a transport failure returns
the statistics unchanged; `404` and `403` are logged and fall through to
the same return; any other reply is decoded and stored as `pushStats`. -/
def pushOutcome (acc : SyncResultStats) (pushResp : PushResp) : SyncResultStats :=
  match pushResp with
  | .connFail => acc
  | .notFound => acc
  | .forbidden => acc
  | .ok stats => { acc with pushStats := some stats }

/-- `syncLocalAndHttp`: an unconditional pull followed by an
unconditional push against one endpoint.  The storage collaborator (an
`IStorage`, whose implementation is not part of this snapshot) is
abstracted as an ingest function; the two `fetch` calls are abstracted as
their observable responses.  Every branch of the source returns
`resultStats` normally — both `try/catch` blocks swallow the transport
errors — so the embedding is a total function. -/
def syncLocalAndHttp {σ Doc : Type} (ingestDocument : σ → Doc → Bool × σ)
    (storage : σ) (pullResp : PullResp Doc) (pushResp : PushResp) :
    SyncResultStats × σ :=
  match pullResp with
  | .connFail => ({ pull := none, push := none, pushStats := none }, storage)
  | .notFound =>
      (pushOutcome { pull := some ⟨0, 0, 0⟩, push := none, pushStats := none } pushResp,
        storage)
  | .ok docs =>
      let r := pullPhase ingestDocument storage docs
      (pushOutcome { pull := some r.1, push := none, pushStats := none } pushResp, r.2)

/-- The per-endpoint and aggregate sync states of the orchestrator. -/
inductive SyncerSt where
  | idle
  | syncing
  | success
  | failure
deriving DecidableEq, Repr

/-- One configured endpoint (`Pub`). -/
structure Pub where
  domain : String
  syncState : SyncerSt
  lastSync : Nat
deriving DecidableEq, Repr

/-- The orchestrator's state (`SyncState`). -/
structure SyncerState where
  pubs : List Pub
  syncState : SyncerSt
  lastSync : Nat
deriving DecidableEq, Repr

namespace Syncer

/-- The classification step of `Syncer.sync` for one endpoint: failure
exactly when both `resultStats.pull` and `resultStats.push` came back
`null`; otherwise success, with the last-sync time recorded. -/
def syncOnePub (r : SyncResultStats) (now : Nat) (pub : Pub) : Pub :=
  if r.pull.isNone && r.push.isNone then { pub with syncState := .failure }
  else { pub with syncState := .success, lastSync := now }

/-- The endpoint loop of `Syncer.sync`: visits the pubs in order,
classifies each from the statistics `f i` its pass produced, and counts
successes and failures. -/
def runPubs (f : Nat → SyncResultStats) (now : Nat) :
    Nat → List Pub → List Pub × Nat × Nat
  | _, [] => ([], 0, 0)
  | i, pub :: rest =>
      let r := runPubs f now (i + 1) rest
      if (f i).pull.isNone && (f i).push.isNone then
        ({ pub with syncState := .failure } :: r.1, r.2.1, r.2.2 + 1)
      else
        ({ pub with syncState := .success, lastSync := now } :: r.1, r.2.1 + 1, r.2.2)

/-- `Syncer.sync` after all endpoints are visited (the intermediate
`syncing` notifications and the settle `sleep` are real-time behaviour
outside the embedding): the per-endpoint classification plus the
aggregate state computed from the success/failure counters. -/
def sync (st : SyncerState) (f : Nat → SyncResultStats) (now : Nat) : SyncerState :=
  let r := runPubs f now 0 st.pubs
  { pubs := r.1
    lastSync := now
    syncState :=
      if 0 < r.2.1 then .success
      else if 0 < r.2.2 then .failure
      else .idle }

end Syncer

/-! ### Concrete rows used by the evaluations and witnesses -/

/-- A stored row: key `"k"`, author `"a"`, timestamp `9`. -/
def exOld : Item := ⟨"kw.1", "w", "k", "v0", 9, "a", "s0"⟩

/-- An incoming document for the same `(key, author)` with the strictly
larger timestamp `10`. -/
def exNew : Item := ⟨"kw.1", "w", "k", "v1", 10, "a", "s1"⟩

/-- Document with timestamp `9`, signature `"sa"`, for `("k", "a")`. -/
def exA : Item := ⟨"kw.1", "w", "k", "v1", 9, "a", "sa"⟩

/-- Document with timestamp `10`, signature `"sb"`, for `("k", "a")`. -/
def exB : Item := ⟨"kw.1", "w", "k", "v2", 10, "a", "sb"⟩

/-- C1: evaluation of `ingestItem` at the failing input.  The incoming
document passes validation and is strictly newer than the stored row for
its `(key, author)` under the integer-lexicographic `(timestamp,
signature)` order (`tsSigLtB`), so by the claim it must be accepted; the
code rejects it and leaves the table unchanged, because the JavaScript
array comparison turns the staleness test into the string comparison
`"10,s1" <= "9,s0"`, which is true. -/
theorem c1_code_eval :
    (ingestItem acceptAll [exOld] exNew none).1 = false
    ∧ (ingestItem acceptAll [exOld] exNew none).2 = [exOld]
    ∧ tsSigLtB exOld.timestamp exOld.signature exNew.timestamp exNew.signature = true := by
  decide

/-- C2: evaluation of the ingest loop on both permutations of a two
document set for one `(key, author)`.  Both orders converge — but to the
timestamp-9 document, the maximum under the stringified-array comparison,
not to the timestamp-10 document, which is the maximum under the integer
`(timestamp, signature)` order the claim names. -/
theorem c2_code_eval :
    ingestAll acceptAll [] [exA, exB] = [exA]
    ∧ ingestAll acceptAll [] [exB, exA] = [exA]
    ∧ tsSigLtB exA.timestamp exA.signature exB.timestamp exB.signature = true := by
  decide

/-- The set request of the C4 evaluation: same key and author as the
stored row `exOld`, with requested timestamp 10. -/
def exSetReq : ItemToSet :=
  { key := "k", value := "v1", author := "a", authorSecret := "sec", timestamp := some 10 }

/-- C4: evaluation of `set` at the failing input.  The store holds a row
with timestamp 9 for `("k", "a")`; `set` computes the timestamp
`max(10, 9 + 1) = 10`, signs, and calls ingest with cutoff 10 — which
rejects the write (`"10,s1" <= "9,s0"` as strings), so `set` returns
`false` and the stored timestamp stays 9 instead of strictly
increasing. -/
theorem c4_code_eval :
    set (itemIsValid (fun _ => true) 0) (fun _ _ => "s1") [exOld] "w" exSetReq 0
      = (false, [exOld]) := by
  decide

/-- C10: whenever `ingestItem` rejects a document (returns `false`), the
table is returned unchanged: both rejection paths — validation failure
and the staleness test — return before any insert, update or delete. -/
theorem c10_reject_unchanged (valid : Item → Option Nat → Bool) (db : List Item)
    (item : Item) (fc : Option Nat)
    (h : (ingestItem valid db item fc).1 = false) :
    (ingestItem valid db item fc).2 = db := by
  cases hv : valid item fc with
  | false => simp [ingestItem, hv]
  | true =>
      cases hex : existingSameAuthorSameKey db item.key item.author with
      | none => simp [ingestItem, hv, hex] at h
      | some ex =>
          cases hle : jsPairLeq item.timestamp item.signature ex.timestamp ex.signature with
          | false => simp [ingestItem, hv, hex, hle] at h
          | true => simp [ingestItem, hv, hex, hle]

/-- Witness for C10 at a concrete rejected document. -/
theorem c10_reject_unchanged_witness :
    (ingestItem rejectAll [] exNew none).1 = false
    ∧ (ingestItem rejectAll [] exNew none).2 = [] :=
  ⟨by decide, c10_reject_unchanged rejectAll [] exNew none (by decide)⟩

/-- C5: syncing an engine with itself, or across two different workspace
identifiers, returns zero counts and leaves the rows of both engines
unchanged, whatever the options say. -/
theorem c5_sync_guards (valid : Item → Option Nat → Bool) (self other : List Item)
    (selfWs otherWs : String) (sameInstance : Bool) (opts : SyncOpts)
    (h : sameInstance = true ∨ selfWs ≠ otherWs) :
    StoreSqlite.sync valid self other selfWs otherWs sameInstance opts
      = .ok (⟨0, 0⟩, self, other) := by
  rcases h with h | h
  · subst h
    simp [StoreSqlite.sync]
  · cases sameInstance with
    | true => simp [StoreSqlite.sync]
    | false => simp [StoreSqlite.sync, bne_iff_ne, h]

/-- Witness for C5: self-sync with live options still returns zeros. -/
theorem c5_sync_guards_witness :
    (true = true ∨ "w" ≠ "w")
    ∧ StoreSqlite.sync acceptAll [exOld] [] "w" "w" true { live := some true }
        = .ok (⟨0, 0⟩, [exOld], []) :=
  ⟨Or.inl rfl,
    c5_sync_guards acceptAll [exOld] [] "w" "w" true { live := some true } (Or.inl rfl)⟩

/-- C6 counterexample: a call to `sync` with `live: true` against the
same instance does not raise the live-sync error — the self-sync guard
runs first and the call silently completes as a no-op returning zero
counts, contradicting "for every call to sync with the live option set to
true, the operation fails by raising a distinct error". -/
theorem c6_counterexample :
    StoreSqlite.sync acceptAll [] [] "w" "w" true { live := some true }
      = .ok (⟨0, 0⟩, [], []) := by
  rfl

/-- C6 (amended): when the self-sync and workspace guards pass (distinct
instances, equal workspaces), every call with `live: true` — whatever the
direction and `existing` options — fails immediately with the
distinct error `"live sync not implemented yet"`. -/
theorem c6_live_error (valid : Item → Option Nat → Bool) (self other : List Item)
    (ws : String) (opts : SyncOpts) (h : opts.live = some true) :
    StoreSqlite.sync valid self other ws ws false opts
      = .error "live sync not implemented yet" := by
  obtain ⟨dir, ex, lv⟩ := opts
  simp only at h
  subst h
  cases dir with
  | none => simp [StoreSqlite.sync, StoreSqlite.syncFrom]
  | some d => cases d <;> simp [StoreSqlite.sync, StoreSqlite.syncFrom]

/-- Witness for C6 at a concrete call. -/
theorem c6_live_error_witness :
    ({ live := some true } : SyncOpts).live = some true
    ∧ StoreSqlite.sync acceptAll [] [] "w" "w" false { live := some true }
        = .error "live sync not implemented yet" :=
  ⟨rfl, c6_live_error acceptAll [] [] "w" { live := some true } rfl⟩

/-- C7 counterexample: a sync pass whose pull succeeds (an empty document
list) and whose push `POST` cannot connect.  The claim says a transport
failure in the push phase leaves both the pull and the push outcome as
total failure (`null`); the code returns the already-computed pull
statistics instead. -/
theorem c7_counterexample :
    (syncLocalAndHttp (fun (s : Unit) (_ : Unit) => (false, s)) ()
        (.ok []) .connFail).1.pull = some ⟨0, 0, 0⟩ := by
  rfl

/-- C7 (amended): a pull-phase transport failure aborts the pass with
both outcomes `null` and the storage untouched; a push-phase transport
failure aborts the pass with the push outcome still `null`/absent while
the pull outcome keeps the statistics the pull already computed.  In
both cases the failure is absorbed (the embedding is a total function:
both `try/catch` blocks of the source return normally). -/
theorem c7_transport_failure {σ Doc : Type} (ingestDocument : σ → Doc → Bool × σ)
    (storage : σ) :
    (∀ pushResp, syncLocalAndHttp ingestDocument storage (.connFail) pushResp
        = ({ pull := none, push := none, pushStats := none }, storage))
    ∧ (syncLocalAndHttp ingestDocument storage (.notFound) .connFail
        = ({ pull := some ⟨0, 0, 0⟩, push := none, pushStats := none }, storage))
    ∧ (∀ docs, syncLocalAndHttp ingestDocument storage (.ok docs) .connFail
        = ({ pull := some (pullPhase ingestDocument storage docs).1, push := none,
              pushStats := none }, (pullPhase ingestDocument storage docs).2)) :=
  ⟨fun _ => rfl, rfl, fun _ => rfl⟩

/-- C8: a pull that answers `404` is not an error: the pull outcome is
`{numIngested: 0, numIgnored: 0, numTotal: 0}`, the local storage is
untouched, and the push phase still runs afterwards (a successful push
reply is decoded and recorded). -/
theorem c8_pull_404 {σ Doc : Type} (ingestDocument : σ → Doc → Bool × σ) (storage : σ) :
    (∀ pushResp,
        (syncLocalAndHttp ingestDocument storage (.notFound : PullResp Doc) pushResp).1.pull
          = some ⟨0, 0, 0⟩
        ∧ (syncLocalAndHttp ingestDocument storage (.notFound : PullResp Doc) pushResp).2
          = storage)
    ∧ (∀ stats,
        (syncLocalAndHttp ingestDocument storage (.notFound : PullResp Doc)
            (.ok stats)).1.pushStats = some stats) := by
  constructor
  · intro pushResp
    cases pushResp <;> exact ⟨rfl, rfl⟩
  · intro stats
    rfl

/-! ### Order and list lemmas used by the query claims -/

theorem charsLtB_irrefl : ∀ l, charsLtB l l = false := by
  intro l
  induction l with
  | nil => rfl
  | cons a as ih => simp [charsLtB, ih, lt_irrefl a]

theorem charsLtB_trans :
    ∀ a b c, charsLtB a b = true → charsLtB b c = true → charsLtB a c = true := by
  intro a
  induction a with
  | nil =>
      intro b c h1 h2
      cases b with
      | nil => simp [charsLtB] at h1
      | cons b0 bs =>
          cases c with
          | nil => simp [charsLtB] at h2
          | cons c0 cs => simp [charsLtB]
  | cons a0 as ih =>
      intro b c h1 h2
      cases b with
      | nil => simp [charsLtB] at h1
      | cons b0 bs =>
          cases c with
          | nil => simp [charsLtB] at h2
          | cons c0 cs =>
              simp only [charsLtB, Bool.or_eq_true, Bool.and_eq_true,
                decide_eq_true_eq, beq_iff_eq] at h1 h2 ⊢
              rcases h1 with h1 | ⟨rfl, h1⟩
              · rcases h2 with h2 | ⟨rfl, h2⟩
                · exact Or.inl (lt_trans h1 h2)
                · exact Or.inl h1
              · rcases h2 with h2 | ⟨rfl, h2⟩
                · exact Or.inl h2
                · exact Or.inr ⟨rfl, ih bs cs h1 h2⟩

theorem strLtB_ne_key (a b : Item) (h : strLtB a.key b.key = true) : a.key ≠ b.key := by
  intro hk
  rw [strLtB, hk, charsLtB_irrefl] at h
  cases h

theorem strictKeyAsc_pairwise : ∀ l, strictKeyAsc l = true →
    List.Pairwise (fun a b : Item => strLtB a.key b.key = true) l := by
  intro l
  induction l with
  | nil => intro _; exact List.Pairwise.nil
  | cons a rest ih =>
      intro h
      cases rest with
      | nil => simp
      | cons b rest' =>
          rw [strictKeyAsc] at h
          simp only [Bool.and_eq_true] at h
          have hp := ih h.2
          refine List.Pairwise.cons ?_ hp
          intro y hy
          rcases List.mem_cons.mp hy with rfl | hy'
          · exact h.1
          · have hby := (List.pairwise_cons.mp hp).1 y hy'
            exact charsLtB_trans _ _ _ h.1 hby

theorem maxTsForKey_cons (x : Item) (xs : List Item) (k : String) :
    maxTsForKey (x :: xs) k
      = if x.key == k then max x.timestamp (maxTsForKey xs k) else maxTsForKey xs k := by
  rw [maxTsForKey, List.filter_cons]
  split <;> simp [maxTsForKey]

theorem le_maxTsForKey :
    ∀ (l : List Item) (k : String) (r : Item), r ∈ l → r.key = k →
      r.timestamp ≤ maxTsForKey l k := by
  intro l k
  induction l with
  | nil => intro r hr; cases hr
  | cons x xs ih =>
      intro r hr hk
      rw [maxTsForKey_cons]
      rcases List.mem_cons.mp hr with rfl | hr'
      · simp [hk]
      · split
        · exact le_trans (ih r hr' hk) (le_max_right _ _)
        · exact ih r hr' hk

theorem maxTsForKey_le :
    ∀ (l : List Item) (k : String) (c : Nat),
      (∀ r ∈ l, r.key = k → r.timestamp ≤ c) → maxTsForKey l k ≤ c := by
  intro l k c
  induction l with
  | nil => intro _; simp [maxTsForKey]
  | cons x xs ih =>
      intro h
      rw [maxTsForKey_cons]
      split
      · rename_i hx
        refine max_le (h x (List.mem_cons_self x xs) (by simpa using hx)) ?_
        exact ih fun r hr hk => h r (List.mem_cons_of_mem x hr) hk
      · exact ih fun r hr hk => h r (List.mem_cons_of_mem x hr) hk

theorem mem_insertSorted (leB : Item → Item → Bool) (x y : Item) :
    ∀ l, (y ∈ insertSorted leB x l ↔ y = x ∨ y ∈ l) := by
  intro l
  induction l with
  | nil => simp [insertSorted]
  | cons z zs ih =>
      rw [insertSorted]
      split
      · simp
      · simp only [List.mem_cons, ih]
        tauto

theorem mem_sortItems (leB : Item → Item → Bool) (y : Item) :
    ∀ l, (y ∈ sortItems leB l ↔ y ∈ l) := by
  intro l
  induction l with
  | nil => simp [sortItems]
  | cons z zs ih =>
      simp only [sortItems, List.foldr_cons] at *
      rw [mem_insertSorted, ih, List.mem_cons]

/-! ### Ingesting fresh authors -/

theorem existingSameAuthorSameKey_none (db : List Item) (key author : String)
    (h : ∀ r ∈ db, ¬(r.key = key ∧ r.author = author)) :
    existingSameAuthorSameKey db key author = none := by
  have hf : db.filter (fun r => r.key == key && r.author == author) = [] := by
    rw [List.filter_eq_nil_iff]
    intro r hr
    simpa using h r hr
  rw [existingSameAuthorSameKey, hf]
  rfl

theorem upsert_no_conflict (db : List Item) (item : Item)
    (h : ∀ r ∈ db, ¬(r.key = item.key ∧ r.author = item.author)) :
    upsert db item = db ++ [item] := by
  rw [upsert]
  congr 1
  rw [List.filter_eq_self]
  intro r hr
  have hh := h r hr
  rw [not_and] at hh
  by_cases hk : r.key = item.key
  · simp [hk, hh hk]
  · simp [hk]

theorem ingest_fresh (valid : Item → Option Nat → Bool) (db : List Item) (d : Item)
    (hv : valid d none = true)
    (h : ∀ r ∈ db, ¬(r.key = d.key ∧ r.author = d.author)) :
    ingestItem valid db d none = (true, db ++ [d]) := by
  rw [ingestItem, hv, existingSameAuthorSameKey_none db d.key d.author h,
    upsert_no_conflict db d h]
  rfl

/-- The invariant form of the cross-author retention property: starting
from a table whose key-`k` rows use none of the incoming authors,
ingesting documents for key `k` with pairwise distinct authors accepts
all of them, keeps every previous key-`k` row, and grows the key-`k` row
count by the number of documents. -/
theorem ingestAll_fresh_authors (valid : Item → Option Nat → Bool) (k : String) :
    ∀ (docs db : List Item),
      (∀ d ∈ docs, valid d none = true) →
      (∀ d ∈ docs, d.key = k) →
      (docs.map Item.author).Nodup →
      (∀ r ∈ db, r.key = k → r.author ∉ docs.map Item.author) →
      ((ingestAll valid db docs).filter (fun r => r.key == k)).length
          = (db.filter (fun r => r.key == k)).length + docs.length
      ∧ (∀ r ∈ db, r.key = k → r ∈ ingestAll valid db docs)
      ∧ (∀ d ∈ docs, d ∈ ingestAll valid db docs) := by
  intro docs
  induction docs with
  | nil =>
      intro db _ _ _ _
      refine ⟨by simp [ingestAll], ?_, ?_⟩
      · intro r hr _
        simpa [ingestAll] using hr
      · intro d hd
        cases hd
  | cons d rest ih =>
      intro db hv hk hnd hdisj
      have hkd : d.key = k := hk d (List.mem_cons_self d rest)
      have hfresh : ∀ r ∈ db, ¬(r.key = d.key ∧ r.author = d.author) := by
        intro r hr hc
        exact hdisj r hr (hc.1.trans hkd)
          (by rw [hc.2]; exact List.mem_cons_self d.author (rest.map Item.author))
      have hstep : ingestAll valid db (d :: rest) = ingestAll valid (db ++ [d]) rest := by
        simp [ingestAll, ingest_fresh valid db d (hv d (List.mem_cons_self d rest)) hfresh]
      rw [List.map_cons] at hnd
      have hnd' : (rest.map Item.author).Nodup := (List.nodup_cons.mp hnd).2
      have hdAuthor : d.author ∉ rest.map Item.author := (List.nodup_cons.mp hnd).1
      have hdisj' : ∀ r ∈ db ++ [d], r.key = k → r.author ∉ rest.map Item.author := by
        intro r hr hrk
        rcases List.mem_append.mp hr with hr' | hr'
        · intro hmem
          exact hdisj r hr' hrk (List.mem_cons_of_mem d.author hmem)
        · rcases List.mem_singleton.mp hr' with rfl
          exact hdAuthor
      obtain ⟨ihlen, ihkeep, ihdocs⟩ :=
        ih (db ++ [d]) (fun x hx => hv x (List.mem_cons_of_mem d hx))
          (fun x hx => hk x (List.mem_cons_of_mem d hx)) hnd' hdisj'
      refine ⟨?_, ?_, ?_⟩
      · rw [hstep, ihlen, List.filter_append]
        simp [hkd]
        omega
      · intro r hr hrk
        rw [hstep]
        exact ihkeep r (List.mem_append.mpr (Or.inl hr)) hrk
      · intro x hx
        rcases List.mem_cons.mp hx with rfl | hx'
        · rw [hstep]
          exact ihkeep x (List.mem_append.mpr (Or.inr (List.mem_singleton.mpr rfl))) hkd
        · rw [hstep]
          exact ihdocs x hx'

/-- Rows with timestamp ties at positions that make the grouped query
ambiguous: two authors, same key, same timestamp, signatures `"sa"` and
`"sb"`. -/
def exTieA : Item := ⟨"kw.1", "w", "k", "va", 100, "A", "sa"⟩

/-- The second, larger-signature row of the tie. -/
def exTieB : Item := ⟨"kw.1", "w", "k", "vb", 100, "B", "sb"⟩

/-- C3 counterexample: with two retained rows for key `"k"` tying at
timestamp 100, the result list `[exTieA]` is one of the results the
grouped no-history query may return (SQLite does not specify which tied
row supplies the bare columns), yet `exTieA` is not the row with the
maximum `(timestamp, signature)` pair — `exTieB` beats it on the
signature tie-break.  So the claim that the returned row is always the
`(timestamp, signature)` maximum fails. -/
theorem c3_counterexample :
    itemsNoHistoryAllowedB [exTieA, exTieB] {} [exTieA] = true
    ∧ exTieB ∈ [exTieA, exTieB]
    ∧ exTieB.key = exTieA.key
    ∧ tsSigLtB exTieA.timestamp exTieA.signature exTieB.timestamp exTieB.signature = true
    ∧ exTieA ≠ exTieB := by
  decide

/-- C3 (amended): (1) any result the no-history query (without a limit)
may return has pairwise distinct keys, each returned row is a retained
matching row whose timestamp is the maximum timestamp among the retained
matching rows of its key (which row supplies the other columns on a
timestamp tie is unspecified), and every matching key is represented;
(2) ingesting documents for one key from N distinct authors (no prior
rows for that key) retains N rows, all visible to
`items({includeHistory: true})`. -/
theorem c3_items :
    (∀ (db : List Item) (q : QueryOpts) (res : List Item),
        q.includeHistory = false → q.limit = none →
        itemsNoHistoryAllowedB db q res = true →
          (res.map Item.key).Nodup
          ∧ (∀ r ∈ res, r ∈ db.filter (matchesQuery q)
               ∧ r.timestamp = maxTsForKey (db.filter (matchesQuery q)) r.key)
          ∧ (∀ m ∈ db.filter (matchesQuery q), ∃ r ∈ res, r.key = m.key))
    ∧ (∀ (valid : Item → Option Nat → Bool) (k : String) (docs db : List Item),
        (∀ d ∈ docs, valid d none = true) →
        (∀ d ∈ docs, d.key = k) →
        (docs.map Item.author).Nodup →
        (∀ r ∈ db, r.key ≠ k) →
          ((ingestAll valid db docs).filter (fun r => r.key == k)).length = docs.length
          ∧ ∀ d ∈ docs, d ∈ itemsWithHistory (ingestAll valid db docs)
              { key := some k, includeHistory := true }) := by
  constructor
  · intro db q res _ _ hallowed
    simp only [itemsNoHistoryAllowedB, Bool.and_eq_true] at hallowed
    obtain ⟨⟨hasc, hcover⟩, hrows⟩ := hallowed
    refine ⟨?_, ?_, ?_⟩
    · have hp := strictKeyAsc_pairwise res hasc
      rw [List.Nodup, List.pairwise_map]
      exact hp.imp (fun h => strLtB_ne_key _ _ h)
    · intro r hr
      have hrfact := List.all_eq_true.mp hrows r hr
      rw [Bool.and_eq_true] at hrfact
      obtain ⟨hin, hmax⟩ := hrfact
      obtain ⟨r', hr'm, hr'eq⟩ := List.any_eq_true.mp hin
      have hreq : r' = r := of_decide_eq_true hr'eq
      subst hreq
      refine ⟨hr'm, ?_⟩
      refine le_antisymm (le_maxTsForKey _ _ _ hr'm rfl) (maxTsForKey_le _ _ _ ?_)
      intro x hx hxk
      have hx2 := List.all_eq_true.mp hmax x hx
      rw [Bool.or_eq_true] at hx2
      rcases hx2 with hx2 | hx2
      · rw [Bool.not_eq_true'] at hx2
        rw [beq_eq_false_iff_ne] at hx2
        exact absurd hxk hx2
      · exact of_decide_eq_true hx2
    · intro m hm
      have hm2 := List.all_eq_true.mp hcover m hm
      obtain ⟨r, hrres, hkey⟩ := List.any_eq_true.mp hm2
      exact ⟨r, hrres, beq_iff_eq.mp hkey⟩
  · intro valid k docs db hv hk hnd hnok
    have hdisj : ∀ r ∈ db, r.key = k → r.author ∉ docs.map Item.author := by
      intro r hr hrk
      exact absurd hrk (hnok r hr)
    obtain ⟨hlen, _, hdocs⟩ := ingestAll_fresh_authors valid k docs db hv hk hnd hdisj
    constructor
    · rw [hlen]
      have hnil : db.filter (fun r => r.key == k) = [] := by
        rw [List.filter_eq_nil_iff]
        intro r hr
        simpa using hnok r hr
      rw [hnil]
      simp
    · intro d hd
      have hmem := hdocs d hd
      simp only [itemsWithHistory, applyLimit, mem_sortItems, List.mem_filter]
      exact ⟨hmem, by simp [matchesQuery, hk d hd]⟩

/-! ### The orchestrator loop -/

theorem runPubs_cons (f : Nat → SyncResultStats) (now i : Nat) (pub : Pub)
    (rest : List Pub) :
    Syncer.runPubs f now i (pub :: rest)
      = (Syncer.syncOnePub (f i) now pub :: (Syncer.runPubs f now (i + 1) rest).1,
         (if (f i).pull.isNone && (f i).push.isNone then
            (Syncer.runPubs f now (i + 1) rest).2.1
          else (Syncer.runPubs f now (i + 1) rest).2.1 + 1),
         (if (f i).pull.isNone && (f i).push.isNone then
            (Syncer.runPubs f now (i + 1) rest).2.2 + 1
          else (Syncer.runPubs f now (i + 1) rest).2.2)) := by
  rw [Syncer.runPubs, Syncer.syncOnePub]
  cases hc : (f i).pull.isNone && (f i).push.isNone <;> simp [hc]

theorem runPubs_length (f : Nat → SyncResultStats) (now : Nat) :
    ∀ (l : List Pub) (i : Nat), (Syncer.runPubs f now i l).1.length = l.length := by
  intro l
  induction l with
  | nil => intro i; rfl
  | cons pub rest ih =>
      intro i
      rw [runPubs_cons]
      simp [ih (i + 1)]

theorem runPubs_get (f : Nat → SyncResultStats) (now : Nat) :
    ∀ (l : List Pub) (i j : Nat) (h : j < l.length)
      (h' : j < (Syncer.runPubs f now i l).1.length),
      (Syncer.runPubs f now i l).1.get ⟨j, h'⟩
        = Syncer.syncOnePub (f (i + j)) now (l.get ⟨j, h⟩) := by
  intro l
  induction l with
  | nil =>
      intro i j h
      cases h
  | cons pub rest ih =>
      intro i j h h'
      cases j with
      | zero => simp [runPubs_cons]
      | succ j =>
          have hr : j < rest.length := Nat.lt_of_succ_lt_succ h
          have hr' : j < (Syncer.runPubs f now (i + 1) rest).1.length := by
            rw [runPubs_length]
            exact hr
          have hrw := runPubs_cons f now i pub rest
          have hadd : i + 1 + j = i + (j + 1) := by omega
          calc (Syncer.runPubs f now i (pub :: rest)).1.get ⟨j + 1, h'⟩
              = (Syncer.runPubs f now (i + 1) rest).1.get ⟨j, hr'⟩ := by
                simp [hrw]
            _ = Syncer.syncOnePub (f (i + 1 + j)) now (rest.get ⟨j, hr⟩) := ih (i + 1) j hr hr'
            _ = Syncer.syncOnePub (f (i + (j + 1))) now ((pub :: rest).get ⟨j + 1, h⟩) := by
                rw [hadd]
                rfl

theorem runPubs_counts (f : Nat → SyncResultStats) (now : Nat) :
    ∀ (l : List Pub) (i : Nat),
      (Syncer.runPubs f now i l).2.1
          = (Syncer.runPubs f now i l).1.countP (fun p => p.syncState == SyncerSt.success)
      ∧ (Syncer.runPubs f now i l).2.2
          = (Syncer.runPubs f now i l).1.countP (fun p => p.syncState == SyncerSt.failure) := by
  intro l
  induction l with
  | nil => intro i; exact ⟨rfl, rfl⟩
  | cons pub rest ih =>
      intro i
      rw [runPubs_cons]
      obtain ⟨ih1, ih2⟩ := ih (i + 1)
      cases hc : (f i).pull.isNone && (f i).push.isNone <;>
        simp [Syncer.syncOnePub, hc, List.countP_cons, ih1, ih2]

theorem runPubs_mem_state (f : Nat → SyncResultStats) (now : Nat) :
    ∀ (l : List Pub) (i : Nat) (p : Pub), p ∈ (Syncer.runPubs f now i l).1 →
      p.syncState = SyncerSt.success ∨ p.syncState = SyncerSt.failure := by
  intro l
  induction l with
  | nil =>
      intro i p hp
      simp [Syncer.runPubs] at hp
  | cons pub rest ih =>
      intro i p hp
      rw [runPubs_cons] at hp
      rcases List.mem_cons.mp hp with rfl | hp'
      · cases hc : (f i).pull.isNone && (f i).push.isNone <;>
          simp [Syncer.syncOnePub, hc]
      · exact ih (i + 1) p hp'

/-- C9: after one orchestrated run, (a) the endpoint list keeps its
length; (b) each endpoint is classified `failure` exactly when both its
pull and push outcomes came back `null`, and `success` otherwise, with
the last-sync time recorded only on success; (c) the aggregate state is
`success` iff at least one endpoint succeeded, `failure` iff there was at
least one endpoint and all of them failed, and `idle` iff no endpoints
were configured. -/
theorem c9_syncer (st : SyncerState) (f : Nat → SyncResultStats) (now : Nat) :
    ((Syncer.sync st f now).pubs.length = st.pubs.length)
    ∧ (∀ (j : Nat) (h : j < st.pubs.length)
        (h' : j < (Syncer.sync st f now).pubs.length),
        (Syncer.sync st f now).pubs.get ⟨j, h'⟩
          = (if (f j).pull = none ∧ (f j).push = none then
              { st.pubs.get ⟨j, h⟩ with syncState := .failure }
             else
              { st.pubs.get ⟨j, h⟩ with syncState := .success, lastSync := now }))
    ∧ ((Syncer.sync st f now).syncState = SyncerSt.success
        ↔ ∃ p ∈ (Syncer.sync st f now).pubs, p.syncState = SyncerSt.success)
    ∧ ((Syncer.sync st f now).syncState = SyncerSt.failure
        ↔ (st.pubs ≠ []
            ∧ ∀ p ∈ (Syncer.sync st f now).pubs, p.syncState = SyncerSt.failure))
    ∧ ((Syncer.sync st f now).syncState = SyncerSt.idle ↔ st.pubs = []) := by
  have hlen : (Syncer.sync st f now).pubs.length = st.pubs.length :=
    runPubs_length f now st.pubs 0
  have hcounts := runPubs_counts f now st.pubs 0
  have hstate :
      (Syncer.sync st f now).syncState
        = (if 0 < (Syncer.runPubs f now 0 st.pubs).2.1 then SyncerSt.success
           else if 0 < (Syncer.runPubs f now 0 st.pubs).2.2 then SyncerSt.failure
           else SyncerSt.idle) := rfl
  have hpubs : (Syncer.sync st f now).pubs = (Syncer.runPubs f now 0 st.pubs).1 := rfl
  refine ⟨hlen, ?_, ?_, ?_, ?_⟩
  · intro j h h'
    have h'' : j < (Syncer.runPubs f now 0 st.pubs).1.length := by
      rw [runPubs_length]
      exact h
    have hg := runPubs_get f now st.pubs 0 j h h''
    have hz : (0 : Nat) + j = j := Nat.zero_add j
    rw [hz] at hg
    show (Syncer.runPubs f now 0 st.pubs).1.get ⟨j, h''⟩ = _
    rw [hg, Syncer.syncOnePub]
    by_cases hc : (f j).pull = none ∧ (f j).push = none
    · rw [if_pos hc, hc.1, hc.2]
      rfl
    · have hb : ((f j).pull.isNone && (f j).push.isNone) = false := by
        cases hp : (f j).pull <;> cases hq : (f j).push <;> simp_all
      rw [if_neg hc, hb]
      rfl
  · rw [hstate, hpubs, hcounts.1]
    constructor
    · intro hs
      by_cases h1 : 0 < (Syncer.runPubs f now 0 st.pubs).1.countP
          (fun p => p.syncState == SyncerSt.success)
      · obtain ⟨p, hp, hps⟩ := List.countP_pos_iff.mp h1
        exact ⟨p, hp, beq_iff_eq.mp hps⟩
      · rw [if_neg h1] at hs
        split at hs <;> cases hs
    · intro ⟨p, hp, hps⟩
      have h1 : 0 < (Syncer.runPubs f now 0 st.pubs).1.countP
          (fun p => p.syncState == SyncerSt.success) :=
        List.countP_pos_iff.mpr ⟨p, hp, by simp [hps]⟩
      rw [if_pos h1]
  · rw [hstate, hpubs, hcounts.1, hcounts.2]
    constructor
    · intro hs
      by_cases h1 : 0 < (Syncer.runPubs f now 0 st.pubs).1.countP
          (fun p => p.syncState == SyncerSt.success)
      · rw [if_pos h1] at hs
        cases hs
      · rw [if_neg h1] at hs
        by_cases h2 : 0 < (Syncer.runPubs f now 0 st.pubs).1.countP
            (fun p => p.syncState == SyncerSt.failure)
        · constructor
          · intro hnil
            obtain ⟨p, hp, _⟩ := List.countP_pos_iff.mp h2
            rw [hnil] at hp
            simp [Syncer.runPubs] at hp
          · intro q hq
            rcases runPubs_mem_state f now st.pubs 0 q hq with hqs | hqs
            · exact absurd (List.countP_pos_iff.mpr ⟨q, hq, by simp [hqs]⟩) h1
            · exact hqs
        · rw [if_neg h2] at hs
          cases hs
    · intro ⟨hne, hall⟩
      have h1 : (Syncer.runPubs f now 0 st.pubs).1.countP
          (fun p => p.syncState == SyncerSt.success) = 0 := by
        rw [List.countP_eq_zero]
        intro p hp
        simp [hall p hp]
      have hne' : (Syncer.runPubs f now 0 st.pubs).1 ≠ [] := by
        intro hnil
        apply hne
        have hl := runPubs_length f now st.pubs 0
        rw [hnil] at hl
        exact List.length_eq_zero.mp hl.symm
      obtain ⟨p, hp⟩ := List.exists_mem_of_ne_nil _ hne'
      have h2 : 0 < (Syncer.runPubs f now 0 st.pubs).1.countP
          (fun p => p.syncState == SyncerSt.failure) :=
        List.countP_pos_iff.mpr ⟨p, hp, by simp [hall p hp]⟩
      rw [if_neg (by omega), if_pos h2]
  · rw [hstate, hcounts.1, hcounts.2]
    constructor
    · intro hs
      by_cases h1 : 0 < (Syncer.runPubs f now 0 st.pubs).1.countP
          (fun p => p.syncState == SyncerSt.success)
      · rw [if_pos h1] at hs
        cases hs
      · rw [if_neg h1] at hs
        by_cases h2 : 0 < (Syncer.runPubs f now 0 st.pubs).1.countP
            (fun p => p.syncState == SyncerSt.failure)
        · rw [if_pos h2] at hs
          cases hs
        · by_contra hne
          have hne' : (Syncer.runPubs f now 0 st.pubs).1 ≠ [] := by
            intro hnil
            apply hne
            have hl := runPubs_length f now st.pubs 0
            rw [hnil] at hl
            exact List.length_eq_zero.mp hl.symm
          obtain ⟨p, hp⟩ := List.exists_mem_of_ne_nil _ hne'
          rcases runPubs_mem_state f now st.pubs 0 p hp with hps | hps
          · exact h1 (List.countP_pos_iff.mpr ⟨p, hp, by simp [hps]⟩)
          · exact h2 (List.countP_pos_iff.mpr ⟨p, hp, by simp [hps]⟩)
    · intro hnil
      have hz : Syncer.runPubs f now 0 st.pubs = ([], 0, 0) := by
        rw [hnil]
        rfl
      rw [hz]
      rfl

/-- Endpoint list and state for the C9 witness. -/
def exSyncerSt : SyncerState :=
  ⟨[⟨"p1/", .idle, 0⟩, ⟨"p2/", .idle, 0⟩], .idle, 0⟩

/-- Per-endpoint pass results for the C9 witness: endpoint 0 failed on
both sides, endpoint 1 pulled one document. -/
def exF : Nat → SyncResultStats := fun i =>
  if i = 0 then { pull := none, push := none, pushStats := none }
  else { pull := some ⟨1, 0, 1⟩, push := none, pushStats := none }

/-- Witness for C9 at a concrete run, discharging the index-bound
hypotheses of the classification clause at endpoint 0. -/
theorem c9_syncer_witness :
    (Syncer.sync exSyncerSt exF 5).pubs.length = exSyncerSt.pubs.length
    ∧ ((Syncer.sync exSyncerSt exF 5).syncState = SyncerSt.success
        ↔ ∃ p ∈ (Syncer.sync exSyncerSt exF 5).pubs, p.syncState = SyncerSt.success)
    ∧ (Syncer.sync exSyncerSt exF 5).pubs.get ⟨0, by decide⟩
        = { exSyncerSt.pubs.get ⟨0, by decide⟩ with syncState := SyncerSt.failure } := by
  have h := c9_syncer exSyncerSt exF 5
  refine ⟨h.1, h.2.2.1, ?_⟩
  have hg := h.2.1 0 (by decide) (by decide)
  exact hg.trans (by rw [if_pos ⟨rfl, rfl⟩])
/-- Witness for C3 at concrete inputs: the allowed result `[exTieB]` for
the two-row tie store, and the ingestion of two documents for key `"k"`
from the two distinct authors `"A"` and `"B"` into an empty store. -/
theorem c3_items_witness :
    (({} : QueryOpts).includeHistory = false
      ∧ ({} : QueryOpts).limit = none
      ∧ itemsNoHistoryAllowedB [exTieA, exTieB] {} [exTieB] = true)
    ∧ (([exTieB].map Item.key).Nodup
        ∧ (∀ r ∈ [exTieB], r ∈ [exTieA, exTieB].filter (matchesQuery {})
             ∧ r.timestamp = maxTsForKey ([exTieA, exTieB].filter (matchesQuery {})) r.key)
        ∧ (∀ m ∈ [exTieA, exTieB].filter (matchesQuery {}), ∃ r ∈ [exTieB], r.key = m.key))
    ∧ (((ingestAll acceptAll [] [exTieA, exTieB]).filter (fun r => r.key == "k")).length
          = [exTieA, exTieB].length
        ∧ ∀ d ∈ [exTieA, exTieB],
            d ∈ itemsWithHistory (ingestAll acceptAll [] [exTieA, exTieB])
              { key := some "k", includeHistory := true }) := by
  refine ⟨⟨rfl, rfl, by decide⟩, ?_, ?_⟩
  · exact c3_items.1 [exTieA, exTieB] {} [exTieB] rfl rfl (by decide)
  · exact c3_items.2 acceptAll "k" [exTieA, exTieB] []
      (by decide) (by decide) (by decide) (by decide)
